import Mathlib

/-!
# Verification of the news ranking and deduplication engine

Shallow embedding of the ranking core of the repository
(`scripts/shared/heat_calculator.py` and the balancing / sorting logic of
`scripts/search_news.py`), together with proofs of the specified properties.

Modelling conventions:
* A Python article dict is a record with optional fields; a missing key is
  `none`.  Python string truthiness (`if article.get("title")`) is the test
  `getD "" ≠ ""`; a `KeyError` raised by `article["source"]` on a missing key
  is modelled by returning `none` from the embedded function (`Option` result).
* Characters are treated at ASCII granularity: `str.lower()` is `Char.toLower`,
  the regex class `\w` is `[A-Za-z0-9_]`, `\s` is the ASCII whitespace set.
* `datetime.fromisoformat` together with the subtraction against `now` is
  abstracted by a parse function `String → Option Int` returning epoch seconds
  (`none` = the parse raises) and an explicit `now : Int`; `hours_ago ≤ h`
  becomes `now - t ≤ 3600 * h`, which is the exact real-arithmetic meaning of
  the Python comparison.
* Python `//` on integers is floor division, `Int.fdiv`.
-/

/-- An article record: the fields of the Python dicts inspected by the
ranking engine.  A missing dict key is `none`. -/
structure Article where
  title : Option String := none
  summary : Option String := none
  source : Option String := none
  published_at : Option String := none
  hn_points : Option Int := none
  reddit_upvotes : Option Int := none
  category : Option String := none
deriving DecidableEq

/-- Python truthiness of `d.get(k)` for a string field: present and non-empty. -/
def truthyS (o : Option String) : Bool :=
  !(o.getD "" == "")

/-- ASCII model of Python `str.lower()`. -/
def lowerStr (s : String) : String :=
  ⟨s.data.map Char.toLower⟩

/-- The ASCII whitespace class of the regex `\s`. -/
def pyIsSpace (c : Char) : Bool :=
  c == ' ' || c == '\t' || c == '\n' || c == '\r' || c == '\x0b' || c == '\x0c'

/-- The ASCII regex class `\w`: letters, digits and the underscore. -/
def isWordChar (c : Char) : Bool :=
  c.isAlphanum || c == '_'

/-- `re.sub(r'\s+', ' ', l)`: every maximal run of whitespace becomes one
space (emitted at the end of the run, which preserves positions). -/
def collapseWS : List Char → List Char
  | [] => []
  | [c] => if pyIsSpace c then [' '] else [c]
  | c :: d :: rest =>
    if pyIsSpace c then
      if pyIsSpace d then collapseWS (d :: rest)
      else ' ' :: collapseWS (d :: rest)
    else c :: collapseWS (d :: rest)

/-- Python `str.strip()` on a character list. -/
def stripSpaces (l : List Char) : List Char :=
  ((l.dropWhile pyIsSpace).reverse.dropWhile pyIsSpace).reverse

/-- `normalize_title` from `heat_calculator.py`: lowercase, delete every
character outside `\w` and `\s`, collapse whitespace runs, strip. -/
def normalize_title (title : String) : String :=
  ⟨stripSpaces (collapseWS (((lowerStr title).data.filter
      (fun c => isWordChar c || pyIsSpace c))))⟩

/-- The normalizer exactly as claim C2 words it: keep only letters, digits and
whitespace (no underscore), collapse whitespace runs, trim. -/
def claimNormalize (s : String) : String :=
  ⟨stripSpaces (collapseWS (((lowerStr s).data.filter
      (fun c => c.isAlphanum || pyIsSpace c))))⟩

/-- The normalizer as amended: the kept characters are letters, digits, the
underscore, and whitespace. -/
def amendedNormalize (s : String) : String :=
  ⟨stripSpaces (collapseWS (((lowerStr s).data.filter
      (fun c => c.isAlpha || c.isDigit || c == '_' || pyIsSpace c))))⟩

example : normalize_title "  OpenAI announces GPT-5!  " = "openai announces gpt5" := by decide
example : normalize_title "" = "" := by decide
example : normalize_title "a_b" = "a_b" := by decide
example : claimNormalize "a_b" = "ab" := by decide

/-- Python substring test `needle in hay` restricted to the case where the
haystack starts with the needle. -/
def startsWithL : List Char → List Char → Bool
  | _, [] => true
  | [], _ :: _ => false
  | c :: cs, d :: ds => c == d && startsWithL cs ds

/-- Python substring test `needle in hay` on character lists. -/
def containsL (needle : List Char) : List Char → Bool
  | [] => needle.isEmpty
  | c :: t => startsWithL (c :: t) needle || containsL needle t

/-- The time-decay term of `calculate_heat_score`.  `parse` abstracts
`datetime.fromisoformat` (epoch seconds, `none` when parsing raises) and
`now` is the wall clock at call time. -/
def recencyTerm (parse : String → Option Int) (now : Int)
    (published_at : Option String) : Int :=
  if truthyS published_at then
    match parse (published_at.getD "") with
    | some t =>
      if now - t ≤ 86400 then 40
      else if now - t ≤ 172800 then 28
      else if now - t ≤ 259200 then 16
      else 8
    | none => 10
  else 0

/-- The keyword-match term of `calculate_heat_score`. -/
def keywordTerm (keyword : String) (a : Article) : Int :=
  if keyword == "" then 0
  else
    let kl := lowerStr keyword
    let tl := lowerStr (a.title.getD "")
    let sl := lowerStr (a.summary.getD "")
    if kl == tl then 30
    else if containsL kl.data tl.data then 15
    else if containsL kl.data sl.data then 5
    else 0

/-- `min(value // 10, 20)` for an engagement field, `0` when the key is
absent.  Python `//` is floor division. -/
def engagementTerm (o : Option Int) : Int :=
  match o with
  | some v => min (Int.fdiv v 10) 20
  | none => 0

/-- The official-source bonus of `calculate_heat_score`. -/
def officialTerm (a : Article) : Int :=
  if a.category = some "official_blog" then 10 else 0

/-- One evaluation of the duplicate condition
`a.get("title") and normalize_title(a["title"]) == tn and a["source"] != article["source"]`;
`none` models the `KeyError` raised when a needed `source` key is absent. -/
def dupMatchM (tn : String) (artSrc : Option String) (a : Article) : Option Bool :=
  if truthyS a.title then
    if normalize_title (a.title.getD "") == tn then
      match a.source, artSrc with
      | some s, some s' => some (!(s == s'))
      | _, _ => none
    else some false
  else some false

/-- `sum(1 for a in all_articles if ...)` inside `calculate_heat_score`. -/
def dupCountM (tn : String) (artSrc : Option String) : List Article → Option Nat
  | [] => some 0
  | a :: rest =>
    match dupMatchM tn artSrc a with
    | none => none
    | some b => (dupCountM tn artSrc rest).map (fun n => if b then n + 1 else n)

/-- The collection loop of `find_duplicate_sources`. -/
def findDupAux (tn : String) (artSrc : Option String) : List Article → Option (List String)
  | [] => some []
  | a :: rest =>
    match dupMatchM tn artSrc a with
    | none => none
    | some true => (findDupAux tn artSrc rest).map (fun l => a.source.getD "" :: l)
    | some false => findDupAux tn artSrc rest

/-- `find_duplicate_sources` from `heat_calculator.py`; `none` models a
raised `KeyError`. -/
def find_duplicate_sources (article : Article) (all_articles : List Article) :
    Option (List String) :=
  if truthyS article.title then
    findDupAux (normalize_title (article.title.getD "")) article.source all_articles
  else some []

/-- The score of `calculate_heat_score` before the final `min(score, 100)`;
`none` models a raised `KeyError`. -/
def preClampScoreM (parse : String → Option Int) (now : Int) (article : Article)
    (all_articles : List Article) (keyword : String) : Option Int :=
  let base : Int := 20
  let r := recencyTerm parse now article.published_at
  let kw := keywordTerm keyword article
  let hn := engagementTerm article.hn_points
  let rd := engagementTerm article.reddit_upvotes
  let off := officialTerm article
  if truthyS article.title then
    match dupCountM (normalize_title (article.title.getD "")) article.source all_articles with
    | none => none
    | some n => some (base + r + kw + hn + rd + off + (n : Int) * 20)
  else some (base + r + kw + hn + rd + off)

/-- `calculate_heat_score` from `heat_calculator.py`: the summed terms with
the final `min(score, 100)`; `none` models a raised `KeyError`. -/
def calculate_heat_score (parse : String → Option Int) (now : Int) (article : Article)
    (all_articles : List Article) (keyword : String) : Option Int :=
  (preClampScoreM parse now article all_articles keyword).map (fun s => min s 100)

/-- A parse function under which every timestamp string fails to parse. -/
def pNone : String → Option Int := fun _ => none

/-- The loop of `balance_sources`, with the `defaultdict(int)` of per-source
counts made explicit.  `if not source: continue` skips a record whose
`source` is missing or empty. -/
def balanceAux (cap : Int) (counts : String → Nat) : List Article → List Article
  | [] => []
  | a :: rest =>
    let s := a.source.getD ""
    if s = "" then balanceAux cap counts rest
    else if (counts s : Int) < cap then
      a :: balanceAux cap (fun t => if t = s then counts t + 1 else counts t) rest
    else balanceAux cap counts rest

/-- `balance_sources` from `search_news.py`. -/
def balance_sources (articles : List Article) (max_per_source : Int) : List Article :=
  balanceAux max_per_source (fun _ => 0) articles

/-- Stable insertion of `x` behind every earlier element of strictly larger
key: the building block of a stable descending sort. -/
def insertDescBy {α : Type} (key : α → Int) (x : α) : List α → List α
  | [] => [x]
  | y :: rest =>
    if key x < key y then y :: insertDescBy key x rest
    else x :: y :: rest

/-- Model of Python `list.sort(key=..., reverse=True)`: the stable descending
sort by `key` (Python's sort is documented to be stable, and `reverse=True`
keeps equal-key elements in their original order). -/
def sortDescBy {α : Type} (key : α → Int) : List α → List α
  | [] => []
  | x :: rest => insertDescBy key x (sortDescBy key rest)

/-- The orchestrator's sort `articles_list.sort(key=lambda x: x["heat_score"], reverse=True)`
on a list of records paired with their computed heat score. -/
def sort_by_heat (l : List (Article × Int)) : List (Article × Int) :=
  sortDescBy (fun p => p.2) l

section Scratch

/-- Spec §8 scenario: fresh record, title exactly the keyword, no engagement,
no duplicates → 20 + 40 + 30 = 90. -/
example :
    calculate_heat_score (fun _ => some 0) 0
      { title := some "GPT", published_at := some "t", source := some "s" }
      [{ title := some "GPT", published_at := some "t", source := some "s" }] "GPT"
      = some 90 := by decide

/-- Spec §8 scenario: no `published_at`, `category = official_blog`,
keyword empty → 20 + 10 = 30. -/
example :
    calculate_heat_score pNone 0
      { title := some "x", source := some "s", category := some "official_blog" }
      [{ title := some "x", source := some "s", category := some "official_blog" }] ""
      = some 30 := by decide

/-- Spec §8 scenario: two records with the same normalized title and
different sources each get the +20 corroboration bonus. -/
example :
    calculate_heat_score pNone 0
      { title := some "OpenAI Announces GPT-5", source := some "TechCrunch" }
      [{ title := some "OpenAI Announces GPT-5", source := some "TechCrunch" },
       { title := some "OpenAI announces GPT-5!", source := some "The Verge" }] ""
      = some 40 := by decide

example :
    find_duplicate_sources
      { title := some "OpenAI Announces GPT-5", source := some "TechCrunch" }
      [{ title := some "OpenAI Announces GPT-5", source := some "TechCrunch" },
       { title := some "OpenAI announces GPT-5!", source := some "The Verge" }]
      = some ["The Verge"] := by decide

example :
    balance_sources
      [{ source := some "a" }, { source := some "b" }, { source := some "a" },
       { source := none }, { source := some "a" }] 2
      = [{ source := some "a" }, { source := some "b" }, { source := some "a" }] := by decide

example :
    sort_by_heat [(⟨none, none, some "a", none, none, none, none⟩, 10),
                  (⟨none, none, some "b", none, none, none, none⟩, 90),
                  (⟨none, none, some "c", none, none, none, none⟩, 10)]
      = [(⟨none, none, some "b", none, none, none, none⟩, 90),
         (⟨none, none, some "a", none, none, none, none⟩, 10),
         (⟨none, none, some "c", none, none, none, none⟩, 10)] := by decide

end Scratch

/-- C1: `calculate_heat_score` only applies `min(score, 100)`; there is no
lower clamp, so a record with a sufficiently negative engagement count gets a
negative score, contradicting the documented 0–100 range.  Here a record with
`reddit_upvotes = -1000` scores `20 + min(-1000 // 10, 20) = -80`. -/
theorem heat_score_below_zero_on_negative_engagement :
    calculate_heat_score pNone 0
      { source := some "s", reddit_upvotes := some (-1000) }
      [{ source := some "s", reddit_upvotes := some (-1000) }] ""
      = some (-80) ∧ (-80 : Int) < 0 := by
  constructor
  · decide
  · decide

/-- C2 counterexample: the code keeps the underscore (regex `\w` includes it),
while the claimed algorithm (strip everything that is not a letter, digit or
whitespace) would delete it. -/
theorem normalize_title_keeps_underscore :
    normalize_title "_" ≠ claimNormalize "_" ∧
      normalize_title "_" = "_" ∧ claimNormalize "_" = "" := by
  refine ⟨by decide, by decide, by decide⟩

/-- The kept-character class of `normalize_title` is letters, digits, the
underscore, and whitespace. -/
theorem keepPred_eq (c : Char) :
    (isWordChar c || pyIsSpace c) = (c.isAlpha || c.isDigit || c == '_' || pyIsSpace c) := by
  simp [isWordChar, Char.isAlphanum, Bool.or_assoc]

/-- C2 amended: `normalize_title` lowercases, removes every character that is
not a letter, digit, underscore, or whitespace, collapses whitespace runs to
single spaces, and trims; it is deterministic, pure, and total. -/
theorem normalize_title_amended_spec (s : String) :
    normalize_title s = amendedNormalize s := by
  unfold normalize_title amendedNormalize
  have h : ((lowerStr s).data.filter (fun c => isWordChar c || pyIsSpace c))
      = ((lowerStr s).data.filter (fun c => c.isAlpha || c.isDigit || c == '_' || pyIsSpace c)) :=
    List.filter_congr (fun c _ => keepPred_eq c)
  rw [h]

/-- C3 counterexample: a record with a non-empty title and no `source` key
does not survive scoring — both `calculate_heat_score` and
`find_duplicate_sources` raise `KeyError` on `article["source"]` (the record
matches its own normalized title), modelled as `none`. -/
theorem sourceless_titled_record_raises :
    calculate_heat_score pNone 0 { title := some "x" } [{ title := some "x" }] "" = none ∧
      find_duplicate_sources { title := some "x" } [{ title := some "x" }] = none := by
  refine ⟨by decide, by decide⟩

/-- A record whose `published_at` is absent contributes no recency term. -/
theorem recencyTerm_none (parse : String → Option Int) (now : Int) :
    recencyTerm parse now none = 0 := rfl

/-- A present, non-empty, unparsable `published_at` contributes exactly 10. -/
theorem recencyTerm_unparsable (parse : String → Option Int) (now : Int)
    (pa : Option String) (h1 : truthyS pa = true) (h2 : parse (pa.getD "") = none) :
    recencyTerm parse now pa = 10 := by
  simp [recencyTerm, h1, h2]

/-- Dropping `published_at` changes no other term of the score. -/
theorem keywordTerm_drop_published (kw : String) (a : Article) :
    keywordTerm kw { a with published_at := none } = keywordTerm kw a := rfl

/-- Dropping `published_at` changes no other term of the score. -/
theorem officialTerm_drop_published (a : Article) :
    officialTerm { a with published_at := none } = officialTerm a := rfl

/-- C5 amended: a `published_at` that is present and non-empty but fails to
parse contributes exactly +10 over the same record with `published_at`
absent, and never raises; a `published_at` that is absent — or present but
equal to the empty string, which the truthiness gate treats as absent —
contributes +0. -/
theorem recency_unparsable_amended (parse : String → Option Int) (now : Int)
    (a : Article) (all : List Article) (kw : String) :
    (truthyS a.published_at = true → parse (a.published_at.getD "") = none →
      preClampScoreM parse now a all kw
        = (preClampScoreM parse now { a with published_at := none } all kw).map (· + 10)) ∧
    (truthyS a.published_at = false →
      preClampScoreM parse now a all kw
        = preClampScoreM parse now { a with published_at := none } all kw) := by
  constructor
  · intro h1 h2
    simp only [preClampScoreM, recencyTerm_unparsable parse now a.published_at h1 h2,
      recencyTerm_none, keywordTerm_drop_published, officialTerm_drop_published]
    by_cases ht : truthyS a.title = true
    · simp only [ht, if_pos]
      cases dupCountM (normalize_title (a.title.getD "")) a.source all with
      | none => simp
      | some n => simp; ring
    · simp only [Bool.not_eq_true] at ht
      simp only [ht, Bool.false_eq_true, if_neg, not_false_iff, Option.map_some']
      congr 1
      ring
  · intro h1
    have hz : recencyTerm parse now a.published_at = 0 := by
      simp [recencyTerm, h1]
    simp only [preClampScoreM, hz, recencyTerm_none, keywordTerm_drop_published,
      officialTerm_drop_published]

/-- Witness for C5 amended at a concrete record. -/
theorem recency_unparsable_amended_witness :
    (preClampScoreM pNone 0 { published_at := some "x", source := some "s" } [] ""
        = (preClampScoreM pNone 0 { source := some "s" } [] "").map (· + 10)) ∧
      preClampScoreM pNone 0 ({} : Article) [] ""
        = preClampScoreM pNone 0 ({} : Article) [] "" :=
  ⟨(recency_unparsable_amended pNone 0 { published_at := some "x", source := some "s" } [] "").1
      (by decide) rfl,
    (recency_unparsable_amended pNone 0 ({} : Article) [] "").2 (by decide)⟩

/-- Every record emitted by the balancing loop has a present, non-empty
source: the loop skips all others. -/
theorem truthy_of_mem_balanceAux (cap : Int) (l : List Article) :
    ∀ (counts : String → Nat) (a : Article),
      a ∈ balanceAux cap counts l → truthyS a.source = true := by
  induction l with
  | nil => intro counts a h; simp [balanceAux] at h
  | cons b rest ih =>
    intro counts a h
    by_cases hs : b.source.getD "" = ""
    · exact ih _ a (by simpa [balanceAux, hs] using h)
    · by_cases hc : ((counts (b.source.getD "")) : Int) < cap
      · simp only [balanceAux, hs, if_neg, hc, if_pos, List.mem_cons,
          not_false_iff] at h
        rcases h with rfl | h
        · simp [truthyS, hs]
        · exact ih _ a h
      · exact ih _ a (by simpa [balanceAux, hs, hc] using h)

/-- C5 counterexample: `published_at = ""` is present and unparsable, yet the
truthiness gate `if article.get("published_at")` treats it as absent: the
record scores the bare base 20, not the claimed 20 + 10. -/
theorem empty_published_at_gets_no_recency :
    calculate_heat_score pNone 0 { source := some "s", published_at := some "" }
        [{ source := some "s", published_at := some "" }] "" = some 20 ∧
      calculate_heat_score pNone 0 { source := some "s", published_at := some "" }
        [{ source := some "s", published_at := some "" }] "" ≠ some 30 := by
  refine ⟨by decide, by decide⟩

/-- C3 amended: a record whose `source` key is missing survives scoring only
when its title is also missing or empty (otherwise the duplicate scan raises
`KeyError`, see the counterexample); such a record completes both scoring
functions and is then silently excluded by `balance_sources`. -/
theorem sourceless_untitled_record_skipped (parse : String → Option Int) (now : Int)
    (a : Article) (all l : List Article) (kw : String) (cap : Int)
    (hsrc : a.source = none) (htitle : a.title.getD "" = "") :
    (calculate_heat_score parse now a all kw).isSome = true ∧
      find_duplicate_sources a all = some [] ∧
      a ∉ balance_sources l cap := by
  have ht : truthyS a.title = false := by simp [truthyS, htitle]
  refine ⟨?_, ?_, ?_⟩
  · simp [calculate_heat_score, preClampScoreM, ht]
  · simp [find_duplicate_sources, ht]
  · intro h
    have := truthy_of_mem_balanceAux cap l _ a h
    simp [truthyS, hsrc] at this

/-- Witness for C3 amended at a concrete record. -/
theorem sourceless_untitled_record_skipped_witness :
    (calculate_heat_score pNone 0 ({} : Article) [{}] "").isSome = true ∧
      find_duplicate_sources ({} : Article) [{}] = some [] ∧
      ({} : Article) ∉ balance_sources [{}] 5 :=
  sourceless_untitled_record_skipped pNone 0 {} [{}] [{}] "" 5 rfl rfl

/-- The balancing loop emits a subsequence of its input. -/
theorem balanceAux_sublist (cap : Int) (l : List Article) :
    ∀ counts : String → Nat, (balanceAux cap counts l).Sublist l := by
  induction l with
  | nil => intro counts; simp [balanceAux]
  | cons b rest ih =>
    intro counts
    by_cases hs : b.source.getD "" = ""
    · simpa [balanceAux, hs] using (ih counts).cons b
    · by_cases hc : ((counts (b.source.getD "")) : Int) < cap
      · simpa [balanceAux, hs, hc] using (ih _).cons₂ b
      · simpa [balanceAux, hs, hc] using (ih counts).cons b

/-- Per-source counting invariant of the balancing loop: emitted occurrences
of a source plus its starting count never exceed `max` of the starting count
and the cap. -/
theorem balanceAux_countP (cap : Int) (s : String) (l : List Article) :
    ∀ counts : String → Nat,
      ((balanceAux cap counts l).countP (fun a => a.source.getD "" == s) : Int)
          + (counts s : Int) ≤ max (counts s : Int) cap := by
  induction l with
  | nil =>
    intro counts
    simp [balanceAux, le_max_iff]
  | cons b rest ih =>
    intro counts
    by_cases hs : b.source.getD "" = ""
    · simpa [balanceAux, hs] using ih counts
    · by_cases hc : ((counts (b.source.getD "")) : Int) < cap
      · simp only [balanceAux, hs, if_neg, hc, if_pos, not_false_iff,
          List.countP_cons]
        by_cases hbs : b.source.getD "" = s
        · have h1 := ih (fun t => if t = b.source.getD "" then counts t + 1 else counts t)
          simp only [hbs, if_pos] at h1 hc ⊢
          simp only [beq_self_eq_true, if_pos, Nat.cast_add, Nat.cast_one] at h1 ⊢
          omega
        · have h1 := ih (fun t => if t = b.source.getD "" then counts t + 1 else counts t)
          have hne : s ≠ b.source.getD "" := fun h => hbs h.symm
          simp only [hne, if_neg, not_false_iff] at h1
          have hb : ((b.source.getD "" == s) : Bool) = false := by
            simp [hbs]
          simp only [hb, if_neg, Bool.false_eq_true, not_false_iff, Nat.add_zero]
          exact h1
      · simpa [balanceAux, hs, hc] using ih counts

/-- Sourceless records are invisible to the balancing loop: filtering them
out of the input changes nothing. -/
theorem balanceAux_filter_truthy (cap : Int) (l : List Article) :
    ∀ counts : String → Nat,
      balanceAux cap counts (l.filter (fun a => truthyS a.source)) = balanceAux cap counts l := by
  induction l with
  | nil => intro counts; simp
  | cons b rest ih =>
    intro counts
    by_cases hs : b.source.getD "" = ""
    · have hb : truthyS b.source = false := by simp [truthyS, hs]
      simp only [List.filter_cons, hb, Bool.false_eq_true, if_neg, not_false_iff]
      rw [ih counts]
      simp [balanceAux, hs]
    · have hb : truthyS b.source = true := by simp [truthyS, hs]
      simp only [List.filter_cons, hb, if_pos]
      simp only [balanceAux, hs, if_neg, not_false_iff]
      by_cases hc : ((counts (b.source.getD "")) : Int) < cap
      · simp only [hc, if_pos, ih]
      · simp only [hc, if_neg, not_false_iff, ih]

/-- C4: for a positive cap, `balance_sources` returns an order-preserving
subsequence of its input in which every source identifier occurs at most
`cap` times and every emitted record has a present, non-empty source;
sourceless records are dropped without being counted against any cap
(removing them from the input leaves the output unchanged). -/
theorem balance_sources_spec (l : List Article) (cap : Int) (hcap : 0 < cap) :
    (balance_sources l cap).Sublist l ∧
      (∀ s : String,
        ((balance_sources l cap).countP (fun a => a.source.getD "" == s) : Int) ≤ cap) ∧
      (∀ a ∈ balance_sources l cap, truthyS a.source = true) ∧
      balance_sources (l.filter (fun a => truthyS a.source)) cap = balance_sources l cap := by
  refine ⟨balanceAux_sublist cap l _, ?_, ?_, balanceAux_filter_truthy cap l _⟩
  · intro s
    have h := balanceAux_countP cap s l (fun _ => 0)
    simpa [max_eq_right hcap.le] using h
  · intro a ha
    exact truthy_of_mem_balanceAux cap l _ a ha

/-- Witness for C4 at a concrete list and cap. -/
theorem balance_sources_spec_witness :
    (balance_sources [{ source := some "x" }] 1).Sublist [{ source := some "x" }] ∧
      ((balance_sources [{ source := some "x" }] 1).countP
          (fun a => a.source.getD "" == "x") : Int) ≤ 1 :=
  ⟨(balance_sources_spec [{ source := some "x" }] 1 (by decide)).1,
    (balance_sources_spec [{ source := some "x" }] 1 (by decide)).2.1 "x"⟩

/-- The duplicate condition of `calculate_heat_score` and
`find_duplicate_sources` as a predicate on a candidate: titled, same
normalized title, different source. -/
def dupCond (tn : String) (src : Option String) (a : Article) : Bool :=
  truthyS a.title && (normalize_title (a.title.getD "") == tn) && (a.source != src)

/-- When the target's source is present and every candidate's source is
present, the collection loop returns exactly the sources of the candidates
satisfying the duplicate condition, in input order. -/
theorem findDupAux_eq (tn : String) (src : String) (l : List Article)
    (hall : ∀ a ∈ l, a.source.isSome = true) :
    findDupAux tn (some src) l
      = some ((l.filter (dupCond tn (some src))).map (fun a => a.source.getD "")) := by
  induction l with
  | nil => simp [findDupAux]
  | cons b rest ih =>
    obtain ⟨sb, hsb⟩ := Option.isSome_iff_exists.mp (hall b (List.mem_cons_self b rest))
    have hrest := ih (fun a ha => hall a (List.mem_cons_of_mem b ha))
    by_cases htb : truthyS b.title = true
    · by_cases hn : normalize_title (b.title.getD "") = tn
      · by_cases hss : sb = src
        · have hbe : (sb == src) = true := by simp [hss]
          have hcond : dupCond tn (some src) b = false := by
            simp [dupCond, hsb, hss]
          simp [findDupAux, dupMatchM, htb, hn, hsb, hbe, hrest, hcond]
        · have hbe : (sb == src) = false := by simp [hss]
          have hcond : dupCond tn (some src) b = true := by
            simp [dupCond, htb, hn, hsb, hss]
          simp [findDupAux, dupMatchM, htb, hn, hsb, hbe, hrest, hcond]
      · have hbe : (normalize_title (b.title.getD "") == tn) = false := by
          simp [hn]
        have hcond : dupCond tn (some src) b = false := by
          simp [dupCond, hbe]
        simp [findDupAux, dupMatchM, htb, hbe, hrest, hcond]
    · have hcond : dupCond tn (some src) b = false := by
        simp [dupCond, htb]
      simp only [Bool.not_eq_true] at htb
      simp [findDupAux, dupMatchM, htb, hrest, hcond]

/-- The duplicate count of `calculate_heat_score` is the length of the list
collected by `find_duplicate_sources`' loop, and both raise together. -/
theorem dupCountM_eq_length (tn : String) (src : Option String) (l : List Article) :
    dupCountM tn src l = (findDupAux tn src l).map List.length := by
  induction l with
  | nil => simp [dupCountM, findDupAux]
  | cons b rest ih =>
    simp only [dupCountM, findDupAux]
    cases h : dupMatchM tn src b with
    | none => simp
    | some v =>
      cases v
      · simp only [if_neg, Bool.false_eq_true, not_false_iff]
        rw [ih]
        cases findDupAux tn src rest <;> simp
      · rw [ih]
        cases findDupAux tn src rest <;> simp

/-- C7: `find_duplicate_sources` returns, in candidate order with repeats
allowed, exactly the source of each candidate whose normalized title equals
the target's and whose source differs; a target with empty or missing title
yields the empty list immediately. -/
theorem find_duplicate_sources_spec (article : Article) (all : List Article) :
    (truthyS article.title = false → find_duplicate_sources article all = some []) ∧
      (∀ src : String, truthyS article.title = true → article.source = some src →
        (∀ a ∈ all, a.source.isSome = true) →
        find_duplicate_sources article all
          = some ((all.filter
              (dupCond (normalize_title (article.title.getD "")) (some src))).map
              (fun a => a.source.getD ""))) := by
  constructor
  · intro h
    simp [find_duplicate_sources, h]
  · intro src ht hs hall
    simp only [find_duplicate_sources, ht, if_pos]
    rw [hs]
    exact findDupAux_eq _ src all hall

/-- Concrete records used by witnesses: two stories with the same normalized
title from different sources. -/
def artA : Article := { title := some "Big News", source := some "s1" }

/-- Concrete records used by witnesses: two stories with the same normalized
title from different sources. -/
def artB : Article := { title := some "Big  News?", source := some "s2" }

/-- Witness for C7 at concrete records. -/
theorem find_duplicate_sources_spec_witness :
    find_duplicate_sources ({} : Article) [] = some [] ∧
      find_duplicate_sources artA [artA, artB]
        = some (([artA, artB].filter
            (dupCond (normalize_title (artA.title.getD "")) (some "s1"))).map
            (fun a => a.source.getD "")) :=
  ⟨(find_duplicate_sources_spec {} []).1 rfl,
    (find_duplicate_sources_spec artA [artA, artB]).2 "s1" (by decide) rfl (by decide)⟩

/-- C6: for a titled record with a present source, in a candidate list whose
records all carry sources, the corroboration term contributes exactly 20 per
candidate with the same normalized title and a different source, capped only
by the final clamp to 100. -/
theorem corroboration_term_spec (parse : String → Option Int) (now : Int)
    (article : Article) (all : List Article) (kw : String) (src : String)
    (ht : truthyS article.title = true) (hs : article.source = some src)
    (hall : ∀ a ∈ all, a.source.isSome = true) :
    calculate_heat_score parse now article all kw
      = some (min (20 + recencyTerm parse now article.published_at + keywordTerm kw article
          + engagementTerm article.hn_points + engagementTerm article.reddit_upvotes
          + officialTerm article
          + ((all.countP (dupCond (normalize_title (article.title.getD "")) (some src))) : Int)
              * 20) 100) := by
  have h1 := findDupAux_eq (normalize_title (article.title.getD "")) src all hall
  have h2 : dupCountM (normalize_title (article.title.getD "")) (some src) all
      = some ((all.filter (dupCond (normalize_title (article.title.getD "")) (some src))).length) := by
    rw [dupCountM_eq_length, h1]
    simp
  simp [calculate_heat_score, preClampScoreM, ht, hs, h2, List.countP_eq_length_filter]

/-- Witness for C6 at concrete records. -/
theorem corroboration_term_spec_witness :
    calculate_heat_score pNone 0 artA [artA, artB] ""
      = some (min (20 + recencyTerm pNone 0 artA.published_at + keywordTerm "" artA
          + engagementTerm artA.hn_points + engagementTerm artA.reddit_upvotes
          + officialTerm artA
          + (([artA, artB].countP (dupCond (normalize_title (artA.title.getD "")) (some "s1"))) : Int)
              * 20) 100) :=
  corroboration_term_spec pNone 0 artA [artA, artB] "" "s1" (by decide) rfl (by decide)

/-- C10: for a titled record, the score reported by `calculate_heat_score` is
the clamped sum of the non-corroboration terms plus 20 per entry of the list
returned by `find_duplicate_sources` on the same record and candidate list:
the two derived fields agree. -/
theorem heat_score_consistent_with_duplicates (parse : String → Option Int) (now : Int)
    (article : Article) (all : List Article) (kw : String) (ds : List String)
    (ht : truthyS article.title = true)
    (hd : find_duplicate_sources article all = some ds) :
    calculate_heat_score parse now article all kw
      = some (min (20 + recencyTerm parse now article.published_at + keywordTerm kw article
          + engagementTerm article.hn_points + engagementTerm article.reddit_upvotes
          + officialTerm article + (ds.length : Int) * 20) 100) := by
  have hfa : findDupAux (normalize_title (article.title.getD "")) article.source all
      = some ds := by
    simpa [find_duplicate_sources, ht] using hd
  have hc : dupCountM (normalize_title (article.title.getD "")) article.source all
      = some ds.length := by
    rw [dupCountM_eq_length, hfa]
    rfl
  simp [calculate_heat_score, preClampScoreM, ht, hc]

/-- Witness for C10 at concrete records. -/
theorem heat_score_consistent_with_duplicates_witness :
    calculate_heat_score pNone 0 artA [artA, artB] ""
      = some (min (20 + recencyTerm pNone 0 artA.published_at + keywordTerm "" artA
          + engagementTerm artA.hn_points + engagementTerm artA.reddit_upvotes
          + officialTerm artA + ((["s2"] : List String).length : Int) * 20) 100) :=
  heat_score_consistent_with_duplicates pNone 0 artA [artA, artB] "" ["s2"]
    (by decide) (by decide)

/-- C8: duplicate detection is symmetric — if records A and B both appear in
the candidate list, are both titled with the same normalized title and have
different present sources (so B is in A's duplicate set), then A's source is
in B's duplicate list. -/
theorem duplicate_detection_symmetric (all : List Article) (A B : Article)
    (sa sb : String) (dsA dsB : List String)
    (hA : A ∈ all) (hB : B ∈ all)
    (hall : ∀ a ∈ all, a.source.isSome = true)
    (hsa : A.source = some sa) (hsb : B.source = some sb)
    (htA : truthyS A.title = true) (htB : truthyS B.title = true)
    (heq : normalize_title (B.title.getD "") = normalize_title (A.title.getD ""))
    (hne : sb ≠ sa)
    (hdA : find_duplicate_sources A all = some dsA)
    (hdB : find_duplicate_sources B all = some dsB)
    (hmem : sb ∈ dsA) :
    sa ∈ dsB := by
  have hfb : findDupAux (normalize_title (B.title.getD "")) B.source all = some dsB := by
    simpa [find_duplicate_sources, htB] using hdB
  rw [hsb] at hfb
  have hds : dsB = (all.filter
      (dupCond (normalize_title (B.title.getD "")) (some sb))).map (fun a => a.source.getD "") := by
    rw [findDupAux_eq (normalize_title (B.title.getD "")) sb all hall] at hfb
    exact (Option.some.inj hfb).symm
  have hcond : dupCond (normalize_title (B.title.getD "")) (some sb) A = true := by
    simp [dupCond, htA, heq, hsa, bne_iff_ne]
    exact fun h => hne h.symm
  rw [hds]
  exact List.mem_map.mpr ⟨A, List.mem_filter.mpr ⟨hA, hcond⟩, by simp [hsa]⟩

/-- Witness for C8 at concrete records. -/
theorem duplicate_detection_symmetric_witness : "s1" ∈ (["s1"] : List String) :=
  duplicate_detection_symmetric [artA, artB] artA artB "s1" "s2" ["s2"] ["s1"]
    (by decide) (by decide) (by decide) rfl rfl (by decide) (by decide) (by decide)
    (by decide) (by decide) (by decide) (by decide)

/-- Anything in `insertDescBy key x l` is `x` or was in `l`. -/
theorem mem_insertDescBy {α : Type} (key : α → Int) (x z : α) (l : List α)
    (h : z ∈ insertDescBy key x l) : z = x ∨ z ∈ l := by
  induction l with
  | nil => simpa [insertDescBy] using h
  | cons y rest ih =>
    by_cases hxy : key x < key y
    · simp only [insertDescBy, hxy, if_pos, List.mem_cons] at h
      rcases h with rfl | h
      · exact Or.inr (List.mem_cons_self _ _)
      · rcases ih h with rfl | hz
        · exact Or.inl rfl
        · exact Or.inr (List.mem_cons_of_mem _ hz)
    · simp only [insertDescBy, hxy, if_neg, not_false_iff, List.mem_cons] at h
      rcases h with rfl | h
      · exact Or.inl rfl
      · exact Or.inr (List.mem_cons.mpr h)

/-- Stable insertion preserves descending sortedness by the key. -/
theorem sorted_insertDescBy {α : Type} (key : α → Int) (x : α) (l : List α)
    (h : l.Sorted (fun a b => key b ≤ key a)) :
    (insertDescBy key x l).Sorted (fun a b => key b ≤ key a) := by
  induction l with
  | nil => simp [insertDescBy]
  | cons y rest ih =>
    rw [List.sorted_cons] at h
    obtain ⟨hy, hrest⟩ := h
    by_cases hxy : key x < key y
    · simp only [insertDescBy, hxy, if_pos]
      rw [List.sorted_cons]
      refine ⟨?_, ih hrest⟩
      intro z hz
      rcases mem_insertDescBy key x z rest hz with rfl | hz'
      · exact hxy.le
      · exact hy z hz'
    · simp only [insertDescBy, hxy, if_neg, not_false_iff]
      rw [List.sorted_cons]
      refine ⟨?_, List.sorted_cons.mpr ⟨hy, hrest⟩⟩
      intro z hz
      rcases List.mem_cons.mp hz with rfl | hz'
      · exact le_of_not_lt hxy
      · exact le_trans (hy z hz') (le_of_not_lt hxy)

/-- Filtering by one key value commutes with stable insertion: an inserted
element of that key lands in front of no equal-key element it followed. -/
theorem insertDescBy_filter {α : Type} (key : α → Int) (k : Int) (x : α) (l : List α) :
    (insertDescBy key x l).filter (fun a => key a == k)
      = if key x == k then x :: l.filter (fun a => key a == k)
        else l.filter (fun a => key a == k) := by
  induction l with
  | nil =>
    by_cases h : key x = k
    · simp [insertDescBy, List.filter_cons, h]
    · simp [insertDescBy, List.filter_cons, h]
  | cons y rest ih =>
    by_cases hxy : key x < key y
    · by_cases hxk : (key x == k) = true
      · have hyk : (key y == k) = false := by
          have h1 : key x = k := beq_iff_eq.mp hxk
          refine beq_eq_false_iff_ne.mpr ?_
          omega
        simp [insertDescBy, hxy, List.filter_cons, hyk, hxk, ih]
      · simp [insertDescBy, hxy, List.filter_cons, hxk, ih]
    · simp [insertDescBy, hxy, List.filter_cons]

/-- The stable descending sort is sorted. -/
theorem sortDescBy_sorted {α : Type} (key : α → Int) (l : List α) :
    (sortDescBy key l).Sorted (fun a b => key b ≤ key a) := by
  induction l with
  | nil => simp [sortDescBy]
  | cons x rest ih => exact sorted_insertDescBy key x _ ih

/-- The stable descending sort does not reorder equal keys. -/
theorem sortDescBy_filter {α : Type} (key : α → Int) (k : Int) (l : List α) :
    (sortDescBy key l).filter (fun a => key a == k) = l.filter (fun a => key a == k) := by
  induction l with
  | nil => rfl
  | cons x rest ih =>
    simp [sortDescBy, insertDescBy_filter, ih, List.filter_cons]

/-- C9: the orchestrator's sort of the scored list is descending by heat
score and stable — for every score value, the records carrying that score
appear in the output in exactly their pre-sort relative order. -/
theorem sort_by_heat_stable (l : List (Article × Int)) :
    (sort_by_heat l).Sorted (fun a b => b.2 ≤ a.2) ∧
      ∀ k : Int, (sort_by_heat l).filter (fun a => a.2 == k) = l.filter (fun a => a.2 == k) :=
  ⟨sortDescBy_sorted (fun p => p.2) l, fun k => sortDescBy_filter (fun p => p.2) k l⟩
